import Mathlib

/-!
# Verification of the `uuis` calculator client (`src/calc.py`)

A shallow embedding of the calculator-style client for the menu-selection
daemon: the history ledger (`Previous` entries), the choice projection
(`set_choices`), the back-reference bindings (`generate_locals`), and the
event-driven session state machine (`Calculator.run`), together with
theorems about the specified behaviour.

Python sentinels `NoInput` / `NothingYet` are embedded as constructors of
explicit sum types; Python list indexing (including negative indices and
`IndexError`) is embedded as `pyListGet`; the event loop is embedded as a
step function `stepCalc` producing the messages sent during one iteration
plus an outcome, iterated over a list of incoming events by `runCalc`.
-/

set_option autoImplicit false

namespace Uuis

/-- The input field of a ledger entry: either the `NoInput` sentinel
(printed `/no input/`, falsy) or the raw text the user typed. -/
inductive PyInp where
  | noInp : PyInp
  | str : String → PyInp
deriving Repr, DecidableEq

/-- The result field of a ledger entry: either the `NothingYet` sentinel
(printed `/nothing yet/`) or a computed value.  The arithmetic fragment of
the evaluator exercised here produces integers. -/
inductive PyRes where
  | nothingYet : PyRes
  | val : Int → PyRes
deriving Repr, DecidableEq

/-- `isinstance(r, NothingYet)` for an embedded result. -/
def isNothingYet : PyRes → Bool
  | .nothingYet => true
  | .val _ => false

/-- `str()` of a result, as `print` / f-strings render it. -/
def PyRes.pyStr : PyRes → String
  | .nothingYet => "/nothing yet/"
  | .val v => toString v

/-- `str()` of an input field (`NoInput.__str__` returns `/no input/`). -/
def PyInp.pyStr : PyInp → String
  | .noInp => "/no input/"
  | .str s => s

/-- `.strip()` on an input field: `NoInput.strip` returns the sentinel
itself; on a string it removes surrounding whitespace. -/
def PyInp.strip : PyInp → PyInp
  | .noInp => .noInp
  | .str s => .str s.trim

/-- One ledger entry (`@dataclass Previous` in `src/calc.py`):
`inp` is the raw input, `out` the evaluation result, `broken` the
staleness flag (default `False`). -/
structure Previous where
  inp : PyInp
  out : PyRes
  broken : Bool := false
deriving Repr, DecidableEq

/-- `Previous.empty()`: fresh entry `Previous(NoInput(), NothingYet())`. -/
def Previous.empty : Previous :=
  { inp := .noInp, out := .nothingYet, broken := false }

/-- `Previous.equals_sign`: `≠` when broken, `=` otherwise. -/
def Previous.equals_sign (p : Previous) : String :=
  if p.broken then "≠" else "="

/-- Python list indexing `xs[i]` with Python semantics: a negative index
counts from the end; an out-of-range index raises `IndexError`, embedded
as `none`. -/
def pyListGet {α : Type} (xs : List α) (i : Int) : Option α :=
  let j : Int := if i < 0 then (xs.length : Int) + i else i
  if 0 ≤ j then xs[j.toNat]? else none

/-- `Calculator.iter_previous`: enumerate `reversed(self.previous)`,
skip the first (most recent) pair when `include_last` is false, and yield
`(last - idx, item)`, i.e. each entry labelled by its absolute position,
most recent first. -/
def iter_previous (previous : List Previous) (include_last : Bool) :
    List (Nat × Previous) :=
  let last := previous.length - 1
  (previous.reverse.enum.filter (fun p => include_last || p.1 != 0)).map
    (fun p => (last - p.1, p.2))

/-- `Calculator.generate_locals`: the dict `{f'_{idx}': p.out}` over
`iter_previous(include_last=False)`, i.e. the back-reference bindings for
every entry except the current one. -/
def generate_locals (previous : List Previous) : List (String × PyRes) :=
  (iter_previous previous false).map (fun p => ("_" ++ toString p.1, p.2.out))

/-- One option row of the `set_choices` message. -/
structure ChoiceOption where
  text : String
  id : Nat
  priority : Int
deriving Repr, DecidableEq

/-- The `options` list built by `Calculator.set_choices`: one row per
ledger entry via `iter_previous()`, with
`text = f'{idx}: {p.inp.strip()} {p.equals_sign} {p.out}'`, `id = idx`
and `priority = -idx`. -/
def set_choices_options (previous : List Previous) : List ChoiceOption :=
  (iter_previous previous true).map
    (fun p =>
      { text := toString p.1 ++ ": " ++ p.2.inp.strip.pyStr ++ " "
          ++ p.2.equals_sign ++ " " ++ p.2.out.pyStr
        id := p.1
        priority := -(p.1 : Int) })

/-! ## The expression evaluator

`Calculator.run` evaluates the typed text with the host evaluator:
`eval(data, {}, self.generate_locals())`.  The state machine below is
parametrised over an arbitrary evaluator so that the control-flow
theorems hold whatever the evaluation does; `pyEval` further down embeds
the integer-arithmetic fragment of the host evaluator that the
specification's examples exercise. -/

/-- A bindings map (the `locals` argument of the evaluator). -/
abbrev Bindings := List (String × PyRes)

/-- An evaluator: text plus bindings to either a value or an exception
(embedded as `Except Unit`). -/
abbrev Evaluator := String → Bindings → Except Unit Int

/-- Tokens of the arithmetic expression fragment. -/
inductive Tok where
  | num : Int → Tok
  | name : String → Tok
  | plus : Tok
  | star : Tok
deriving Repr, DecidableEq

/-- Identifier continuation characters (letters, digits, underscore). -/
def isIdentChar (c : Char) : Bool :=
  c.isAlphanum || c = '_'

/-- Numeric value of a digit string. -/
def digitsVal (cs : List Char) : Int :=
  cs.foldl (fun a c => a * 10 + ((c.toNat - 48 : Nat) : Int)) 0

/-- Tokenizer for the arithmetic fragment, fuelled for totality:
spaces are skipped, `+` and `*` are operators, digit runs are integer
literals, identifier runs are names; anything else is a syntax error. -/
def tokenize : Nat → List Char → Option (List Tok)
  | 0, _ => none
  | _ + 1, [] => some []
  | f + 1, c :: cs =>
    if c = ' ' then tokenize f cs
    else if c = '+' then (tokenize f cs).map (fun ts => Tok.plus :: ts)
    else if c = '*' then (tokenize f cs).map (fun ts => Tok.star :: ts)
    else if c.isDigit then
      (tokenize f ((c :: cs).dropWhile Char.isDigit)).map
        (fun ts => Tok.num (digitsVal ((c :: cs).takeWhile Char.isDigit)) :: ts)
    else if c.isAlpha || c = '_' then
      (tokenize f ((c :: cs).dropWhile isIdentChar)).map
        (fun ts => Tok.name (String.mk ((c :: cs).takeWhile isIdentChar)) :: ts)
    else none

/-- Name lookup in the bindings: a name bound to the `NothingYet`
sentinel is not usable in arithmetic (the host raises `TypeError`), and
an unbound name raises `NameError`; both are embedded as `none`. -/
def lookupBinding (b : Bindings) (s : String) : Option Int :=
  match b.lookup s with
  | some (.val v) => some v
  | _ => none

/-- Parse one atom: an integer literal or a bound name. -/
def parseAtom (b : Bindings) : List Tok → Option (Int × List Tok)
  | Tok.num n :: rest => some (n, rest)
  | Tok.name s :: rest => (lookupBinding b s).map (fun v => (v, rest))
  | _ => none

/-- Left-associated chain of `*` after an initial atom value. -/
def parseTermAux (b : Bindings) : Nat → Int → List Tok → Option (Int × List Tok)
  | 0, _, _ => none
  | f + 1, acc, Tok.star :: rest =>
    (parseAtom b rest).bind (fun p => parseTermAux b f (acc * p.1) p.2)
  | _ + 1, acc, ts => some (acc, ts)

/-- Parse one multiplicative term. -/
def parseTerm (b : Bindings) (f : Nat) (ts : List Tok) : Option (Int × List Tok) :=
  (parseAtom b ts).bind (fun p => parseTermAux b f p.1 p.2)

/-- Left-associated chain of `+` after an initial term value. -/
def parseSumAux (b : Bindings) : Nat → Int → List Tok → Option (Int × List Tok)
  | 0, _, _ => none
  | f + 1, acc, Tok.plus :: rest =>
    (parseTerm b f rest).bind (fun p => parseSumAux b f (acc + p.1) p.2)
  | _ + 1, acc, ts => some (acc, ts)

/-- Modelled from the spec: the host expression evaluator invoked at
`src/calc.py` line 127 (CPython `eval` with the supplied bindings as
`locals`), restricted to the integer arithmetic fragment — integer
literals, the back-reference names, `+` and `*` — that the
specification's examples exercise.  The empty expression and any
malformed one are syntax errors; an unbound or sentinel-bound name is an
evaluation error; all are embedded as `Except.error ()`. -/
def pyEval : Evaluator := fun text b =>
  match tokenize (text.length + 1) text.toList with
  | none => .error ()
  | some [] => .error ()
  | some ts =>
    match (parseTerm b (ts.length + 1) ts).bind
        (fun p => parseSumAux b (ts.length + 1) p.1 p.2) with
    | some (v, []) => .ok v
    | _ => .error ()

/-! ## The session state machine

`Calculator.run` is a `while True` loop: each iteration sends the
re-rendered choice list, reads one message, and dispatches on its key.
`stepCalc` embeds one iteration, given the incoming event; it returns the
messages sent during that iteration in order, and an outcome: the next
ledger, loop exit (`break` after printing, or `return`), or an uncaught
`IndexError`.  Note that the `break` taken on `select` with an index
falls through to the post-loop `send` of the stop notice, while the
`return` taken on `window_closed` does not. -/

/-- A decoded incoming daemon event (`message['key']` plus payload). -/
inductive Event where
  | select : Option Int → Event
  | input_change : String → Event
  | window_closed : Event
deriving Repr, DecidableEq

/-- An outbound message of the loop body: a `set_choices` render, a
`set_input` instruction (`clear_input` sends the empty string), or the
post-loop stop notice. -/
inductive Msg where
  | setChoices : List ChoiceOption → Msg
  | setInput : String → Msg
  | stop : Msg
deriving Repr, DecidableEq

/-- Outcome of one loop iteration: continue with a new ledger, leave the
loop (with the printed final output on the `select`-with-index path,
without one on the `window_closed` path), or abort with `IndexError`. -/
inductive Outcome where
  | next : List Previous → Outcome
  | exit : Option String → Outcome
  | indexError : Outcome
deriving Repr, DecidableEq

/-- One iteration of the `Calculator.run` loop on ledger `previous`
receiving event `ev`, parametrised by the evaluator `E` standing for
`eval(data, {}, self.generate_locals())`. -/
def stepCalc (E : Evaluator) (previous : List Previous) (ev : Event) :
    List Msg × Outcome :=
  let choices := Msg.setChoices (set_choices_options previous)
  match ev with
  | .select none =>
    match pyListGet previous (-1) with
    | none => ([choices], .indexError)
    | some curr =>
      if !(isNothingYet curr.out) then
        ([choices, Msg.setInput ""], .next (previous ++ [Previous.empty]))
      else
        ([choices], .next previous)
  | .select (some d) =>
    match pyListGet previous d with
    | none => ([choices], .indexError)
    | some p => ([choices, Msg.stop], .exit (some p.out.pyStr))
  | .input_change data =>
    match pyListGet previous (-1) with
    | none => ([choices], .indexError)
    | some curr =>
      match E data (generate_locals previous) with
      | .ok v =>
        ([choices],
         .next (previous.dropLast ++ [{ inp := .str data, out := .val v, broken := false }]))
      | .error _ =>
        let c1 : Previous := { curr with broken := false }
        if data ≠ "" then
          let c2 : Previous := { c1 with inp := .str data }
          let c3 : Previous :=
            if !(isNothingYet c2.out) then { c2 with broken := true } else c2
          ([choices], .next (previous.dropLast ++ [c3]))
        else
          ([choices], .next (previous.dropLast ++ [{ c1 with inp := .noInp }]))
  | .window_closed => ([choices], .exit none)

/-- Result of running the loop over a finite list of incoming events:
still inside the loop (choices rendered, waiting for the next event),
exited, or aborted by an uncaught `IndexError`.  Each constructor carries
the full ordered trace of messages sent. -/
inductive RunOut where
  | pending : List Previous → List Msg → RunOut
  | exited : Option String → List Msg → RunOut
  | crashed : List Msg → RunOut
deriving Repr, DecidableEq

/-- The message trace of a finished run. -/
def RunOut.msgs : RunOut → List Msg
  | .pending _ ms => ms
  | .exited _ ms => ms
  | .crashed ms => ms

/-- Whether the run left the loop normally (`break` or `return`). -/
def RunOut.isExited : RunOut → Bool
  | .exited _ _ => true
  | _ => false

/-- Iterate `stepCalc` over a list of events, concatenating the message
traces.  With no event pending the loop has just rendered the choice
list and is blocked on `recv`. -/
def runCalc (E : Evaluator) (previous : List Previous) : List Event → RunOut
  | [] => .pending previous [Msg.setChoices (set_choices_options previous)]
  | ev :: evs =>
    match stepCalc E previous ev with
    | (ms, .next p) =>
      match runCalc E p evs with
      | .pending q ms2 => .pending q (ms ++ ms2)
      | .exited out ms2 => .exited out (ms ++ ms2)
      | .crashed ms2 => .crashed (ms ++ ms2)
    | (ms, .exit out) => .exited out ms
    | (ms, .indexError) => .crashed ms

/-- Ledgers reachable from the initial session state (the single empty
entry created in `Calculator.__init__`) by continuing loop iterations. -/
inductive Reachable (E : Evaluator) : List Previous → Prop where
  | init : Reachable E [Previous.empty]
  | step (p : List Previous) (ev : Event) (ms : List Msg) (p' : List Previous) :
      Reachable E p → stepCalc E p ev = (ms, .next p') → Reachable E p'

/-- The two-entry example ledger of the specification:
`[{input: "2+2", result: 4}, {input: "_0*10", result: 40}]`. -/
def exLedger : List Previous :=
  [{ inp := .str "2+2", out := .val 4, broken := false },
   { inp := .str "_0*10", out := .val 40, broken := false }]

/-! ## Helper lemmas -/

/-- Python indexing with `-1` on a non-empty list returns the last
element. -/
lemma pyListGet_neg_one {α : Type} (xs : List α) (h : xs ≠ []) :
    pyListGet xs (-1) = some (xs.getLast h) := by
  have hlen : 0 < xs.length := List.length_pos.2 h
  simp only [pyListGet]
  rw [if_pos (show (-1 : Int) < 0 by norm_num)]
  rw [if_pos (by omega : (0 : Int) ≤ (xs.length : Int) + -1)]
  have ht : ((xs.length : Int) + -1).toNat = xs.length - 1 := by omega
  rw [ht, List.getLast_eq_getElem, List.getElem?_eq_getElem (by omega)]

/-- Python indexing with an index at or past the length raises
`IndexError`. -/
lemma pyListGet_too_big {α : Type} (xs : List α) (d : Int)
    (hd : (xs.length : Int) ≤ d) : pyListGet xs d = none := by
  simp only [pyListGet]
  rw [if_neg (by omega : ¬ d < 0), if_pos (by omega : (0 : Int) ≤ d)]
  exact List.getElem?_eq_none (by omega)

/-- Python indexing with a negative in-range index counts from the end. -/
lemma pyListGet_neg {α : Type} (xs : List α) (d : Int)
    (h1 : -(xs.length : Int) ≤ d) (h2 : d < 0) :
    pyListGet xs d = xs[(d + xs.length).toNat]? := by
  simp only [pyListGet]
  rw [if_pos h2, if_pos (by omega : (0 : Int) ≤ (xs.length : Int) + d)]
  have : ((xs.length : Int) + d).toNat = (d + (xs.length : Int)).toNat := by omega
  rw [this]

/-- Enumeration from a positive start contains no index `0`, so the
nonzero-index filter keeps everything. -/
lemma filter_enumFrom_pos {α : Type} (l : List α) (k : Nat) (hk : k ≠ 0) :
    (l.enumFrom k).filter (fun p => p.1 != 0) = l.enumFrom k := by
  induction l generalizing k with
  | nil => rfl
  | cons a l ih =>
    have hk2 : (k != 0) = true := by simpa using hk
    simp only [List.enumFrom, List.filter_cons, hk2, if_pos]
    rw [ih (k + 1) (by omega)]

/-- Filtering the nonzero-index pairs out of an enumeration drops
exactly the head. -/
lemma filter_enum_ne_zero {α : Type} (l : List α) :
    l.enum.filter (fun p => p.1 != 0) = l.enum.drop 1 := by
  cases l with
  | nil => rfl
  | cons a l =>
    simp only [List.enum_cons, List.filter_cons]
    rw [if_neg (by simp)]
    rw [show (1 : Nat) = 0 + 1 from rfl, List.drop_succ_cons, List.drop_zero]
    exact filter_enumFrom_pos l 1 (by omega)

/-- `iter_previous` with `include_last` is the reversed enumeration of
the ledger: every entry, labelled by absolute position, most recent
first. -/
lemma iter_previous_true (xs : List Previous) :
    iter_previous xs true = xs.enum.reverse := by
  have hfilter : xs.reverse.enum.filter (fun p => true || p.1 != 0) = xs.reverse.enum := by
    simp
  apply List.ext_getElem?
  intro n
  simp only [iter_previous, hfilter, List.getElem?_map]
  by_cases hn : n < xs.length
  · rw [List.getElem?_enum,
      List.getElem?_reverse (by simpa using hn),
      List.getElem?_reverse (by simpa [List.enum_length] using hn),
      List.getElem?_enum, List.enum_length,
      List.getElem?_eq_getElem (by omega)]
    simp
  · rw [List.getElem?_eq_none (by simp [List.enum_length]; omega),
      List.getElem?_eq_none (by simp [List.enum_length]; omega)]
    simp

/-- `iter_previous` without the last entry is the reversed enumeration
of the ledger with its last entry removed. -/
lemma iter_previous_false (xs : List Previous) :
    iter_previous xs false = xs.dropLast.enum.reverse := by
  have hfilter : xs.reverse.enum.filter (fun p => false || p.1 != 0)
      = xs.reverse.enum.drop 1 := by
    simpa using filter_enum_ne_zero xs.reverse
  apply List.ext_getElem?
  intro n
  simp only [iter_previous, hfilter, List.getElem?_map, List.getElem?_drop]
  by_cases hn : n < xs.length - 1
  · rw [List.getElem?_enum,
      List.getElem?_reverse (by simpa using (by omega : 1 + n < xs.length)),
      List.getElem?_reverse
        (by simp [List.enum_length, List.length_dropLast]; omega),
      List.getElem?_enum, List.getElem?_dropLast, List.enum_length,
      List.length_dropLast,
      if_pos (by omega : xs.length - 1 - 1 - n < xs.length - 1)]
    rw [show xs.length - 1 - (1 + n) = xs.length - 1 - 1 - n from by omega]
    cases xs[xs.length - 1 - 1 - n]? <;> simp
    omega
  · rw [List.getElem?_eq_none (by simp [List.enum_length]; omega),
      List.getElem?_eq_none
        (by simp [List.enum_length, List.length_dropLast]; omega)]
    simp

/-- `generate_locals` in closed form. -/
lemma generate_locals_eq (xs : List Previous) :
    generate_locals xs
      = (xs.dropLast.enum.reverse).map (fun p => ("_" ++ toString p.1, p.2.out)) := by
  rw [generate_locals, iter_previous_false]

/-- `set_choices_options` in closed form. -/
lemma set_choices_options_eq (xs : List Previous) :
    set_choices_options xs
      = (xs.enum.reverse).map
          (fun p =>
            { text := toString p.1 ++ ": " ++ p.2.inp.strip.pyStr ++ " "
                ++ p.2.equals_sign ++ " " ++ p.2.out.pyStr
              id := p.1
              priority := -(p.1 : Int) : ChoiceOption }) := by
  rw [set_choices_options, iter_previous_true]

/-! ## Claim theorems -/

/-- C3: a `select` event with null payload appends one fresh empty entry
and sends the clear-input instruction exactly when the current (last)
entry's result is not the `NothingYet` sentinel; when it is the
sentinel, the ledger is unchanged and only the re-rendered choice list
is sent. -/
theorem select_clear_behavior (E : Evaluator) (previous : List Previous)
    (h : previous ≠ []) :
    (isNothingYet (previous.getLast h).out = false →
      stepCalc E previous (Event.select none) =
        ([Msg.setChoices (set_choices_options previous), Msg.setInput ""],
         Outcome.next (previous ++ [Previous.empty])))
  ∧ (isNothingYet (previous.getLast h).out = true →
      stepCalc E previous (Event.select none) =
        ([Msg.setChoices (set_choices_options previous)],
         Outcome.next previous)) := by
  constructor <;> intro hlast <;>
    simp [stepCalc, pyListGet_neg_one previous h, hlast]

/-- Witness for C3: both branches at concrete ledgers. -/
theorem select_clear_behavior_witness :
    stepCalc pyEval exLedger (Event.select none) =
      ([Msg.setChoices (set_choices_options exLedger), Msg.setInput ""],
       Outcome.next (exLedger ++ [Previous.empty]))
  ∧ stepCalc pyEval [Previous.empty] (Event.select none) =
      ([Msg.setChoices (set_choices_options [Previous.empty])],
       Outcome.next [Previous.empty]) :=
  ⟨(select_clear_behavior pyEval exLedger (by decide)).1 (by decide),
   (select_clear_behavior pyEval [Previous.empty] (by decide)).2 (by decide)⟩

/-- C4: an `input_change` event whose text fails to evaluate does not
leave the loop and updates only the last entry: its `broken` flag is
first cleared; with non-empty text the input becomes that text and
`broken` is set back exactly when the stored result is not the
`NothingYet` sentinel (the result is kept); with empty text the input
becomes the `NoInput` sentinel and the result is kept. -/
theorem input_change_failure_updates (E : Evaluator) (previous : List Previous)
    (text : String) (h : previous ≠ [])
    (hE : E text (generate_locals previous) = .error ()) :
    stepCalc E previous (Event.input_change text) =
      ([Msg.setChoices (set_choices_options previous)],
       Outcome.next (previous.dropLast ++
         [if text = "" then
            { inp := .noInp, out := (previous.getLast h).out, broken := false }
          else
            { inp := .str text, out := (previous.getLast h).out,
              broken := !(isNothingYet (previous.getLast h).out) }])) := by
  by_cases htext : text = ""
  · subst htext
    simp [stepCalc, pyListGet_neg_one previous h, hE]
  · by_cases hny : isNothingYet (previous.getLast h).out <;>
      simp [stepCalc, pyListGet_neg_one previous h, hE, htext, hny]

/-- Witness for C4: editing the finished entry of the example ledger to
the invalid text `2+` marks it broken while keeping the result `40`. -/
theorem input_change_failure_witness :
    stepCalc pyEval exLedger (Event.input_change "2+") =
      ([Msg.setChoices (set_choices_options exLedger)],
       Outcome.next (exLedger.dropLast ++
         [{ inp := .str "2+", out := .val 40, broken := true }])) := by
  simpa using
    input_change_failure_updates pyEval exLedger "2+" (by decide) (by rfl)

/-- C5: an `input_change` event whose text evaluates to `v` replaces the
last ledger entry wholesale by `{input: text, result: v, broken: false}`,
leaving all earlier entries unchanged; in particular `2+2` with empty
bindings yields `4` and the current entry becomes
`{input: "2+2", result: 4, broken: false}`. -/
theorem input_change_success_replaces (E : Evaluator) (previous : List Previous)
    (text : String) (v : Int) (h : previous ≠ [])
    (hE : E text (generate_locals previous) = .ok v) :
    stepCalc E previous (Event.input_change text) =
      ([Msg.setChoices (set_choices_options previous)],
       Outcome.next (previous.dropLast ++
         [{ inp := .str text, out := .val v, broken := false }]))
  ∧ pyEval "2+2" [] = .ok 4
  ∧ stepCalc pyEval [Previous.empty] (Event.input_change "2+2") =
      ([Msg.setChoices (set_choices_options [Previous.empty])],
       Outcome.next [{ inp := .str "2+2", out := .val 4, broken := false }]) := by
  refine ⟨?_, by rfl, by rfl⟩
  simp [stepCalc, pyListGet_neg_one previous h, hE]

/-- Witness for C5: the `2+2` evaluation on the initial ledger. -/
theorem input_change_success_witness :
    stepCalc pyEval [Previous.empty] (Event.input_change "2+2") =
      ([Msg.setChoices (set_choices_options [Previous.empty])],
       Outcome.next [{ inp := .str "2+2", out := .val 4, broken := false }]) := by
  simpa using
    (input_change_success_replaces pyEval [Previous.empty] "2+2" 4
      (by decide) (by rfl)).1

/-- C8: a `select` event with a valid entry index terminates the event
loop; the session's final output is exactly the stored result of the
entry at that absolute index, no further choice-list render is sent
after the one opening that iteration, and this is the sole exit that
produces an output. -/
theorem select_index_terminates (E : Evaluator) (previous : List Previous)
    (d : Int) (p : Previous) (rest : List Event)
    (h : pyListGet previous d = some p) :
    runCalc E previous (Event.select (some d) :: rest) =
      RunOut.exited (some p.out.pyStr)
        [Msg.setChoices (set_choices_options previous), Msg.stop]
  ∧ (∀ ev ms s, stepCalc E previous ev = (ms, Outcome.exit (some s)) →
      ∃ d2 p2, ev = Event.select (some d2) ∧ pyListGet previous d2 = some p2
        ∧ s = p2.out.pyStr) := by
  constructor
  · simp [runCalc, stepCalc, h]
  · intro ev ms s hstep
    match ev with
    | .select none =>
      rcases hpy : pyListGet previous (-1) with _ | curr <;>
        simp only [stepCalc, hpy] at hstep
      · simp at hstep
      · rcases hb : isNothingYet curr.out <;> simp [hb] at hstep
    | .select (some d2) =>
      rcases hpy : pyListGet previous d2 with _ | p2 <;>
        simp only [stepCalc, hpy] at hstep
      · simp at hstep
      · injection hstep with h1 h2
        injection h2 with h3
        injection h3 with h4
        exact ⟨d2, p2, rfl, hpy, h4.symm⟩
    | .input_change t =>
      rcases hpy : pyListGet previous (-1) with _ | curr <;>
        simp only [stepCalc, hpy] at hstep
      · simp at hstep
      · rcases hEv : E t (generate_locals previous) with u | v
        · simp only [hEv] at hstep
          by_cases ht : t = "" <;> simp [ht] at hstep
        · simp [hEv] at hstep
    | .window_closed =>
      simp only [stepCalc] at hstep
      simp at hstep

/-- Witness for C8: selecting entry 1 of the example ledger ends the
session with output `40`. -/
theorem select_index_terminates_witness :
    runCalc pyEval exLedger [Event.select (some 1)] =
      RunOut.exited (some "40")
        [Msg.setChoices (set_choices_options exLedger), Msg.stop] :=
  (select_index_terminates pyEval exLedger 1
    { inp := .str "_0*10", out := .val 40, broken := false } [] (by rfl)).1

/-- C9 counterexample: the post-loop stop send is not dead code — a run
terminated by `select` with index `0` from the initial state both exits
the loop and has the stop message in its transport trace. -/
theorem stop_sent_on_select_exit :
    (runCalc pyEval [Previous.empty] [Event.select (some 0)]).isExited = true
  ∧ Msg.stop ∈ (runCalc pyEval [Previous.empty] [Event.select (some 0)]).msgs := by
  decide

/-- C9 amended: the stop message is sent in an iteration exactly when
that iteration's event is `select` with an in-range index — i.e. on the
`break` exit path — and never on the `window_closed` path or any
continuing iteration. -/
theorem stop_sent_iff_select_index (E : Evaluator) (previous : List Previous)
    (ev : Event) (ms : List Msg) (o : Outcome)
    (h : stepCalc E previous ev = (ms, o)) :
    Msg.stop ∈ ms ↔
      ∃ d p, ev = Event.select (some d) ∧ pyListGet previous d = some p := by
  match ev with
  | .select none =>
    rcases hpy : pyListGet previous (-1) with _ | curr <;>
      simp only [stepCalc, hpy] at h
    · injection h with h1 h2
      subst h1
      simp
    · rcases hb : isNothingYet curr.out <;> simp only [hb] at h <;>
        injection h with h1 h2 <;> subst h1 <;> simp
  | .select (some d2) =>
    rcases hpy : pyListGet previous d2 with _ | p2 <;>
      simp only [stepCalc, hpy] at h
    · injection h with h1 h2
      subst h1
      simp [hpy]
    · injection h with h1 h2
      subst h1
      exact iff_of_true (by simp) ⟨d2, p2, rfl, hpy⟩
  | .input_change t =>
    rcases hpy : pyListGet previous (-1) with _ | curr <;>
      simp only [stepCalc, hpy] at h
    · injection h with h1 h2
      subst h1
      simp
    · rcases hEv : E t (generate_locals previous) with u | v
      · simp only [hEv] at h
        by_cases ht : t = ""
        · rw [if_neg (by simp [ht])] at h
          injection h with h1 h2
          subst h1
          simp
        · rw [if_pos ht] at h
          injection h with h1 h2
          subst h1
          simp
      · simp only [hEv] at h
        injection h with h1 h2
        subst h1
        simp
  | .window_closed =>
    simp only [stepCalc] at h
    injection h with h1 h2
    subst h1
    simp

/-- Witness for C9 (amended): the stop message is in the trace of the
`select`-with-index iteration on the initial ledger. -/
theorem stop_sent_iff_select_index_witness :
    Msg.stop ∈ (stepCalc pyEval [Previous.empty] (Event.select (some 0))).1 :=
  (stop_sent_iff_select_index pyEval [Previous.empty] (Event.select (some 0))
      (stepCalc pyEval [Previous.empty] (Event.select (some 0))).1
      (stepCalc pyEval [Previous.empty] (Event.select (some 0))).2 rfl).mpr
    ⟨0, Previous.empty, rfl, by rfl⟩

/-- C10: the final-selection lookup is unguarded Python list indexing:
an integer payload at or past the ledger length raises an uncaught
`IndexError` that aborts the session with no output (and no stop
notice), while a negative payload `d` with `-n ≤ d < 0` terminates the
session printing the result of the entry at position `n + d`. -/
theorem select_index_unguarded (E : Evaluator) (previous : List Previous)
    (d : Int) :
    ((previous.length : Int) ≤ d →
      ∀ rest, runCalc E previous (Event.select (some d) :: rest) =
        RunOut.crashed [Msg.setChoices (set_choices_options previous)])
  ∧ (-(previous.length : Int) ≤ d → d < 0 →
      ∃ p, previous[(d + previous.length).toNat]? = some p ∧
        stepCalc E previous (Event.select (some d)) =
          ([Msg.setChoices (set_choices_options previous), Msg.stop],
           Outcome.exit (some p.out.pyStr))) := by
  constructor
  · intro hd rest
    simp [runCalc, stepCalc, pyListGet_too_big previous d hd]
  · intro h1 h2
    have hidx : (d + previous.length).toNat < previous.length := by omega
    refine ⟨previous[(d + previous.length).toNat],
      by simp [List.getElem?_eq_getElem hidx], ?_⟩
    simp [stepCalc, pyListGet_neg previous d h1 h2,
      List.getElem?_eq_getElem hidx]

/-- Witness for C10: on the two-entry example ledger, index `2` crashes
the session and index `-1` terminates it printing `40`. -/
theorem select_index_unguarded_witness :
    runCalc pyEval exLedger [Event.select (some 2)] =
      RunOut.crashed [Msg.setChoices (set_choices_options exLedger)]
  ∧ stepCalc pyEval exLedger (Event.select (some (-1))) =
      ([Msg.setChoices (set_choices_options exLedger), Msg.stop],
       Outcome.exit (some "40")) := by
  constructor
  · exact (select_index_unguarded pyEval exLedger 2).1 (by decide) []
  · obtain ⟨p, hp, hstep⟩ :=
      (select_index_unguarded pyEval exLedger (-1)).2 (by decide) (by decide)
    have hc : exLedger[((-1 : Int) + (exLedger.length : Int)).toNat]? =
        some { inp := .str "_0*10", out := .val 40, broken := false } := by rfl
    rw [hc] at hp
    rw [← Option.some.inj hp] at hstep
    exact hstep

/-! ## The evaluation scope of the eval call (claim C1) -/

/-- A (partial) list of names of the CPython builtins module: enough to
show that imports, file I/O and dynamic evaluation are reachable. -/
def pythonBuiltinNames : List String :=
  ["__import__", "open", "eval", "exec", "compile", "getattr", "setattr",
   "globals", "vars", "input", "abs", "min", "max"]

/-- Modelled from the spec: the name-resolution scope of the host
evaluator call `eval(data, {}, self.generate_locals())` at
`src/calc.py` line 127 — the host evaluator itself is not code under
`src/`.  CPython resolves a name inside such an `eval` against the
`locals` mapping, then the `globals` mapping, then the builtins; and
when the `globals` mapping passed in lacks the key `__builtins__` — as
the literal `{}` there does — the interpreter inserts a reference to the
builtins module before evaluating, so every builtin name is resolvable
from the evaluated expression. -/
def evalCallScopeNames (previous : List Previous) : List String :=
  (generate_locals previous).map Prod.fst ++ "__builtins__" :: pythonBuiltinNames

/-- C1 (refuted by the code): the scope of the `input_change` eval call
is not restricted to the back-reference bindings.  With the initial
ledger the bindings are empty, yet `__import__` and `open` are
resolvable from the evaluated expression, so imports, I/O and ambient
process state are reachable and the evaluation outcome is not a
function of `(text, bindings)` alone. -/
theorem eval_scope_reaches_builtins :
    (generate_locals [Previous.empty]).map Prod.fst = []
  ∧ "__import__" ∈ evalCallScopeNames [Previous.empty]
  ∧ "open" ∈ evalCallScopeNames [Previous.empty] := by
  decide

/-! ## The ledger invariant (claim C2) -/

/-- A successful `previous[-1]` lookup forces a non-empty list. -/
lemma pyListGet_neg_one_some {α : Type} (xs : List α) (c : α)
    (h : pyListGet xs (-1) = some c) : xs ≠ [] := by
  intro he
  subst he
  norm_num [pyListGet] at h
  exact Option.noConfusion h

/-- Characterization of every continuing iteration: a `select` with null
payload either appends one empty entry (and only when the last entry's
result is not the sentinel) or leaves the ledger unchanged, and an
`input_change` rewrites exactly the last entry, with a `broken` flag
that is set only when the kept result is not the sentinel. -/
lemma stepCalc_next_cases (E : Evaluator) (previous : List Previous)
    (hne : previous ≠ []) (ev : Event) (ms : List Msg) (p' : List Previous)
    (hstep : stepCalc E previous ev = (ms, Outcome.next p')) :
    (p' = previous ++ [Previous.empty]
       ∧ isNothingYet (previous.getLast hne).out = false
       ∧ ev = Event.select none)
  ∨ (p' = previous ∧ ev = Event.select none)
  ∨ (∃ x, p' = previous.dropLast ++ [x]
       ∧ (x.broken = true → isNothingYet x.out = false)
       ∧ ∃ t, ev = Event.input_change t) := by
  match ev with
  | .select none =>
    simp only [stepCalc, pyListGet_neg_one previous hne] at hstep
    rcases hb : isNothingYet (previous.getLast hne).out <;>
      simp only [hb] at hstep <;> injection hstep with h1 h2 <;>
      injection h2 with h3
    · exact Or.inl ⟨h3.symm, rfl, rfl⟩
    · exact Or.inr (Or.inl ⟨h3.symm, rfl⟩)
  | .select (some d) =>
    rcases hpy : pyListGet previous d with _ | p2 <;>
      simp only [stepCalc, hpy] at hstep <;>
      injection hstep with h1 h2 <;> exact absurd h2 (by simp)
  | .input_change t =>
    simp only [stepCalc, pyListGet_neg_one previous hne] at hstep
    rcases hEv : E t (generate_locals previous) with u | v
    · simp only [hEv] at hstep
      by_cases ht : t = ""
      · rw [if_neg (by simp [ht])] at hstep
        injection hstep with h1 h2
        injection h2 with h3
        refine Or.inr (Or.inr ⟨_, h3.symm, by simp, t, rfl⟩)
      · rw [if_pos ht] at hstep
        injection hstep with h1 h2
        injection h2 with h3
        refine Or.inr (Or.inr ⟨_, h3.symm, ?_, t, rfl⟩)
        rcases hb : isNothingYet (previous.getLast hne).out <;> simp [hb]
    · simp only [hEv] at hstep
      injection hstep with h1 h2
      injection h2 with h3
      exact Or.inr (Or.inr ⟨_, h3.symm, by simp, t, rfl⟩)
  | .window_closed =>
    simp only [stepCalc] at hstep
    injection hstep with h1 h2
    exact absurd h2 (by simp)

/-- C2: from the initial session state (the singleton empty-entry
ledger), every reachable state satisfies the ledger invariant: the
ledger is non-empty; every broken entry has a non-sentinel result; and
any step that appends an entry starts from a state whose last entry has
a non-sentinel result. -/
theorem ledger_invariant (E : Evaluator) (previous : List Previous)
    (h : Reachable E previous) :
    previous ≠ []
  ∧ (∀ p ∈ previous, p.broken = true → isNothingYet p.out = false)
  ∧ (∀ ev ms p', stepCalc E previous ev = (ms, Outcome.next p') →
      previous.length < p'.length →
      ∃ last, previous.getLast? = some last ∧ isNothingYet last.out = false) := by
  have growth : ∀ (q : List Previous) (hq : q ≠ []),
      ∀ ev ms p', stepCalc E q ev = (ms, Outcome.next p') →
        q.length < p'.length →
        ∃ last, q.getLast? = some last ∧ isNothingYet last.out = false := by
    intro q hq ev ms p' hstep hgrow
    rcases stepCalc_next_cases E q hq ev ms p' hstep with
      ⟨hp, hb, _⟩ | ⟨hp, _⟩ | ⟨x, hp, _, _⟩
    · exact ⟨q.getLast hq, List.getLast?_eq_getLast q hq, hb⟩
    · subst hp
      exact absurd hgrow (lt_irrefl _)
    · subst hp
      have hq1 : 0 < q.length := List.length_pos.2 hq
      rw [List.length_append, List.length_dropLast] at hgrow
      simp at hgrow
      omega
  induction h with
  | init =>
    refine ⟨by simp, ?_, growth [Previous.empty] (by simp)⟩
    intro p hp hbp
    simp at hp
    subst hp
    simp [Previous.empty] at hbp
  | step p ev ms p' hr hstep ih =>
    obtain ⟨hne, hinv, _⟩ := ih
    rcases stepCalc_next_cases E p hne ev ms p' hstep with
      ⟨hp, hb, _⟩ | ⟨hp, _⟩ | ⟨x, hp, hx, _⟩
    · subst hp
      refine ⟨by simp, ?_, growth _ (by simp)⟩
      intro q hq hbq
      rcases List.mem_append.1 hq with hq | hq
      · exact hinv q hq hbq
      · simp at hq
        subst hq
        simp [Previous.empty] at hbq
    · subst hp
      exact ⟨hne, hinv, growth _ hne⟩
    · subst hp
      refine ⟨by simp, ?_, growth _ (by simp)⟩
      intro q hq hbq
      rcases List.mem_append.1 hq with hq | hq
      · exact hinv q ((List.dropLast_sublist p).subset hq) hbq
      · simp at hq
        subst hq
        exact hx hbq

/-- Witness for C2: the invariant instantiated at the initial state. -/
theorem ledger_invariant_witness : ([Previous.empty] : List Previous) ≠ [] :=
  (ledger_invariant pyEval [Previous.empty] Reachable.init).1

/-! ## The back-reference bindings (claim C6) -/

/-- The spec's description of `priorBindings()`: the mapping from the
back-reference name of each absolute position `0 .. n-2` (every entry
except the current one) to that entry's result, listed by ascending
position. -/
def priorBindingsSpec (previous : List Previous) : List (String × PyRes) :=
  (List.range (previous.length - 1)).map
    (fun i => ("_" ++ toString i, (previous.getD i Previous.empty).out))

/-- C6: `generate_locals` is exactly the spec's `priorBindings()`
mapping (the code lists it most-recent-first, hence the reversal); on
the example ledger it is `{_0 : 4}` and evaluating `_0*10` under it
yields `40`. -/
theorem generate_locals_is_prior_bindings :
    (∀ previous : List Previous,
      generate_locals previous = (priorBindingsSpec previous).reverse)
  ∧ generate_locals exLedger = [("_0", PyRes.val 4)]
  ∧ pyEval "_0*10" (generate_locals exLedger) = .ok 40 := by
  refine ⟨?_, by rfl, by rfl⟩
  intro xs
  have base : (xs.dropLast.enum).map (fun p => ("_" ++ toString p.1, p.2.out))
      = (List.range (xs.length - 1)).map
          (fun i => ("_" ++ toString i, (xs.getD i Previous.empty).out)) := by
    apply List.ext_getElem?
    intro n
    simp only [List.getElem?_map, List.getElem?_enum]
    by_cases hn : n < xs.length - 1
    · rw [List.getElem?_range (by omega), List.getElem?_dropLast, if_pos hn,
        List.getElem?_eq_getElem (by omega)]
      simp only [Option.map_some']
      rw [List.getD_eq_getElem xs Previous.empty (show n < xs.length by omega)]
    · rw [List.getElem?_eq_none (by simp [List.length_dropLast]; omega),
        List.getElem?_eq_none (by simp [List.length_range]; omega)]
      simp
  calc generate_locals xs
      = (xs.dropLast.enum.reverse).map (fun p => ("_" ++ toString p.1, p.2.out)) :=
        generate_locals_eq xs
    _ = ((xs.dropLast.enum).map (fun p => ("_" ++ toString p.1, p.2.out))).reverse :=
        List.map_reverse _ _
    _ = (priorBindingsSpec xs).reverse := by rw [base, priorBindingsSpec]

/-! ## The choice projection (claims C7) -/

/-- C7 counterexample: on the two-entry example ledger the projected
priorities in output order are `[-1, 0]`, which is not strictly
decreasing. -/
theorem set_choices_priorities_not_decreasing :
    (set_choices_options exLedger).map ChoiceOption.priority = [-1, 0]
  ∧ ¬ List.Pairwise (fun a b : Int => b < a)
      ((set_choices_options exLedger).map ChoiceOption.priority) := by
  constructor
  · rfl
  · decide

/-- C7 amended: the projected choice list of a ledger of `N` entries has
exactly `N` rows, ordered most-recent-first — row `k` is the entry at
absolute position `N-1-k`, with `id` that position and `priority` its
negation — and the priorities in output order are strictly increasing
(not decreasing). -/
theorem set_choices_rows (xs : List Previous) :
    (set_choices_options xs).length = xs.length
  ∧ (∀ k (hk : k < (set_choices_options xs).length),
      ((set_choices_options xs).get ⟨k, hk⟩).id = xs.length - 1 - k
      ∧ ((set_choices_options xs).get ⟨k, hk⟩).priority
          = -((xs.length - 1 - k : Nat) : Int))
  ∧ List.Pairwise (fun a b : Int => a < b)
      ((set_choices_options xs).map ChoiceOption.priority) := by
  have hlen : (set_choices_options xs).length = xs.length := by
    rw [set_choices_options_eq]
    simp [List.length_map, List.length_reverse, List.enum_length]
  have hrow : ∀ (k : Nat) (hk2 : k < xs.length),
      (set_choices_options xs)[k]?
        = some { text := toString (xs.length - 1 - k) ++ ": "
                   ++ (xs.get ⟨xs.length - 1 - k, by omega⟩).inp.strip.pyStr ++ " "
                   ++ (xs.get ⟨xs.length - 1 - k, by omega⟩).equals_sign ++ " "
                   ++ (xs.get ⟨xs.length - 1 - k, by omega⟩).out.pyStr,
                 id := xs.length - 1 - k,
                 priority := -((xs.length - 1 - k : Nat) : Int) } := by
    intro k hk2
    rw [set_choices_options_eq, List.getElem?_map,
      List.getElem?_reverse (by simp [List.enum_length]; omega)]
    simp only [List.enum_length]
    rw [List.getElem?_enum,
      List.getElem?_eq_getElem (show xs.length - 1 - k < xs.length by omega)]
    simp [List.get_eq_getElem]
  have hchar : ∀ (k : Nat) (hk : k < (set_choices_options xs).length),
      ((set_choices_options xs).get ⟨k, hk⟩).id = xs.length - 1 - k
      ∧ ((set_choices_options xs).get ⟨k, hk⟩).priority
          = -((xs.length - 1 - k : Nat) : Int) := by
    intro k hk
    have hk2 : k < xs.length := by rwa [hlen] at hk
    have h2 : (set_choices_options xs)[k]?
        = some ((set_choices_options xs).get ⟨k, hk⟩) := by
      rw [List.get_eq_getElem]
      exact List.getElem?_eq_getElem hk
    rw [hrow k hk2] at h2
    have h3 := Option.some.inj h2
    constructor
    · rw [← h3]
    · rw [← h3]
  refine ⟨hlen, hchar, ?_⟩
  rw [List.pairwise_iff_get]
  intro i j hij
  have hmap : ∀ (m : Fin ((set_choices_options xs).map ChoiceOption.priority).length),
      ((set_choices_options xs).map ChoiceOption.priority).get m
        = -((xs.length - 1 - (m : Nat) : Nat) : Int) := by
    intro m
    have hm : (m : Nat) < (set_choices_options xs).length := by
      have := m.2
      simpa [List.length_map] using this
    rw [List.get_eq_getElem, List.getElem_map]
    exact (hchar (m : Nat) hm).2
  rw [hmap i, hmap j]
  have hjx : (j : Nat) < xs.length := by
    have := j.2
    simpa [List.length_map, hlen] using this
  have hij2 : (i : Nat) < (j : Nat) := hij
  have hnat : xs.length - 1 - (j : Nat) < xs.length - 1 - (i : Nat) := by omega
  have hcast : ((xs.length - 1 - (j : Nat) : Nat) : Int)
      < ((xs.length - 1 - (i : Nat) : Nat) : Int) := by
    exact_mod_cast hnat
  omega

/-- Witness for C7 (amended): on the example ledger the projection has
two rows and row 0 carries the priority of absolute position 1. -/
theorem set_choices_rows_witness :
    (set_choices_options exLedger).length = exLedger.length
  ∧ ((set_choices_options exLedger).get
      ⟨0, (by decide : 0 < (set_choices_options exLedger).length)⟩).priority
        = -((exLedger.length - 1 - 0 : Nat) : Int) :=
  ⟨(set_choices_rows exLedger).1,
   ((set_choices_rows exLedger).2.1 0 (by decide)).2⟩

end Uuis
